import Mathlib

/-!
Verification of `scripts/fetch_transcript.py`.

The script is embedded shallowly over `List Char` (strings), `Nat`/`Int`
(numbers) and explicit oracles for the HTTP layer.  Components:

* `extract_video_id` — the URL-to-video-id extractor (source lines 48-76),
  together with a model of the parts of Python's `urllib.parse.urlparse`
  and `parse_qs` that the extractor exercises, and of the three regular
  expressions it uses.
* `run_apify_actor` — the submit / poll / fetch job driver
  (source lines 79-173), modelled over response oracles with a
  deterministic clock that advances by the fixed 2-second sleep per poll
  iteration.
* `format_transcript_text` / `format_transcript_json` — the response
  normalizers (source lines 176-218).

Modelling notes for the `urlparse` model: percent-decoding (`unquote_plus`)
and the params split on `;` are not modelled; theorems that quantify over
arbitrary inputs carry hypotheses keeping inputs away from `%`, `;` and
control characters, and all concrete inputs used below avoid them.
-/

/-- Character class of the video-id regexes: `[a-zA-Z0-9_-]`. -/
def classChar (c : Char) : Bool :=
  c.isAlpha || c.isDigit || c == '_' || c == '-'

/-- `leadsWith pat s`: `pat` is an initial segment of `s`. -/
def leadsWith : List Char → List Char → Bool
  | [], _ => true
  | _ :: _, [] => false
  | p :: ps, c :: cs => p == c && leadsWith ps cs

/-- Substring test, Python's `pat in s`. -/
def isSubstr (pat : List Char) : List Char → Bool
  | [] => leadsWith pat []
  | c :: cs => leadsWith pat (c :: cs) || isSubstr pat cs

/-- Longest prefix not containing a character of `ds`. -/
def takeUntilAny (ds : List Char) : List Char → List Char
  | [] => []
  | c :: cs => if c ∈ ds then [] else c :: takeUntilAny ds cs

/-- Remainder of the list from the first character of `ds` on (inclusive). -/
def dropUntilAny (ds : List Char) : List Char → List Char
  | [] => []
  | c :: cs => if c ∈ ds then c :: cs else dropUntilAny ds cs

/-- Split at the first occurrence of `d`: Python's `s.split(d, 1)` when `d`
occurs, `none` otherwise. -/
def splitFirst (d : Char) : List Char → Option (List Char × List Char)
  | [] => none
  | c :: cs =>
    if c == d then some ([], cs)
    else
      match splitFirst d cs with
      | some pr => some (c :: pr.1, pr.2)
      | none => none

/-- Characters allowed in a URL scheme (`urllib.parse.scheme_chars`). -/
def schemeChar (c : Char) : Bool :=
  c.isAlpha || c.isDigit || c == '+' || c == '-' || c == '.'

/-- Validity of the text before the first `:` as a scheme: nonempty, starts
with a letter, all characters scheme characters. -/
def schemeOk : List Char → Bool
  | [] => false
  | c :: cs => c.isAlpha && (c :: cs).all schemeChar

/-- Scheme removal step of `urllib.parse.urlsplit`: find the first `:`; if
the text before it is a valid scheme, continue with the text after it. -/
def dropScheme (u : List Char) : List Char :=
  match splitFirst ':' u with
  | some pr => if schemeOk pr.1 then pr.2 else u
  | none => none.getD u

/-- Characters ending the netloc in `urlsplit`. -/
def netDelims : List Char := ['/', '?', '#']

/-- The (netloc, path, query) triple of Python's `urlparse`: drop the
scheme; if the remainder starts with `//`, the netloc runs to the first of
`/?#`; then the fragment is split off at the first `#` and the query at the
first `?`. -/
def urlsplitPQN (url : List Char) : List Char × List Char × List Char :=
  let u := dropScheme url
  let hasNet := leadsWith ['/', '/'] u
  let netloc := if hasNet then takeUntilAny netDelims (u.drop 2) else []
  let u2 := if hasNet then dropUntilAny netDelims (u.drop 2) else u
  let u3 := takeUntilAny ['#'] u2
  match splitFirst '?' u3 with
  | some pr => (netloc, pr.1, pr.2)
  | none => (netloc, u3, [])

/-- Fields of a query string, split on `&` (Python `str.split`). -/
def splitAmp : List Char → List (List Char)
  | [] => [[]]
  | c :: cs =>
    match splitAmp cs with
    | [] => [[c]]
    | f :: rest => if c == '&' then [] :: f :: rest else (c :: f) :: rest

/-- Name/value pairs of `urllib.parse.parse_qsl` with default options:
fields without `=` or with an empty value are dropped (percent-decoding is
not modelled; see the module docstring). -/
def qsPairs (q : List Char) : List (List Char × List Char) :=
  (splitAmp q).filterMap fun f =>
    match splitFirst '=' f with
    | none => none
    | some pr => if pr.2.isEmpty then none else some pr

/-- Python's `"v" in parse_qs(query)`. -/
def hasV (q : List Char) : Bool :=
  (qsPairs q).any fun pr => pr.1 == ['v']

/-- Python's `parse_qs(query)["v"][0]`: the first value bound to `v`. -/
def firstV (q : List Char) : List Char :=
  match (qsPairs q).find? (fun pr => pr.1 == ['v']) with
  | some pr => pr.2
  | none => []

/-- `[a-zA-Z0-9_-]{11}` at the head of `u`: the first 11 characters, when
there are at least 11 and all are class characters. -/
def take11Class (u : List Char) : Option (List Char) :=
  let t := u.take 11
  if t.length == 11 && t.all classChar then some t else none

/-- The literal `/embed/` of the first alternative. -/
def embedPat : List Char := ['/', 'e', 'm', 'b', 'e', 'd', '/']

/-- The literal `/v/` of the second alternative. -/
def vPat : List Char := ['/', 'v', '/']

/-- The literal `/shorts/`. -/
def shortsPat : List Char := ['/', 's', 'h', 'o', 'r', 't', 's', '/']

/-- One attempt of `re.search(r"/(embed|v)/([a-zA-Z0-9_-]{11})", path)` at a
fixed position: alternative `embed` first, then `v`. -/
def matchAtEV (s : List Char) : Option (List Char) :=
  match (if leadsWith embedPat s then take11Class (s.drop 7) else none) with
  | some tok => some tok
  | none => if leadsWith vPat s then take11Class (s.drop 3) else none

/-- Leftmost match of the `/(embed|v)/([a-zA-Z0-9_-]{11})` search. -/
def searchEmbedV : List Char → Option (List Char)
  | [] => none
  | c :: cs =>
    match matchAtEV (c :: cs) with
    | some tok => some tok
    | none => searchEmbedV cs

/-- One attempt of `re.search(r"/shorts/([a-zA-Z0-9_-]{11})", path)`. -/
def matchAtShorts (s : List Char) : Option (List Char) :=
  if leadsWith shortsPat s then take11Class (s.drop 8) else none

/-- Leftmost match of the `/shorts/([a-zA-Z0-9_-]{11})` search. -/
def searchShorts : List Char → Option (List Char)
  | [] => none
  | c :: cs =>
    match matchAtShorts (c :: cs) with
    | some tok => some tok
    | none => searchShorts cs

/-- `re.match(r"^[a-zA-Z0-9_-]{11}$", s)` succeeds: either `s` is exactly
11 class characters, or 11 class characters followed by a final newline
(`$` also matches just before a trailing newline). -/
def fullmatchId (s : List Char) : Bool :=
  (s.length == 11 && s.all classChar) ||
    (s.length == 12 && (s.take 11).all classChar && s.getLast? == some '\n')

/-- The short-link marker `youtu.be`. -/
def markerL : List Char := "youtu.be".data

/-- `extract_video_id` of the script, source lines 48-76.  Branches in
source order: the `youtu.be` substring test on the whole input, the `v`
query parameter, the `/embed/`-or-`/v/` path regex, the `/shorts/` path
regex, and the bare 11-character-token match. -/
def extract_video_id (url : List Char) : Option (List Char) :=
  if isSubstr markerL url then
    some (takeUntilAny ['?'] (((urlsplitPQN url).2.1).dropWhile (fun c => c == '/')))
  else if hasV (urlsplitPQN url).2.2 then
    some (firstV (urlsplitPQN url).2.2)
  else
    match searchEmbedV (urlsplitPQN url).2.1 with
    | some tok => some tok
    | none =>
      match searchShorts (urlsplitPQN url).2.1 with
      | some tok => some tok
      | none => if fullmatchId url then some url else none


/-! ## Job driver (source lines 79-173)

The HTTP layer is abstracted into oracles.  A submit response is either a
raised `requests` exception or a status code together with the run id
parsed from the response body (`none` when the body fails to parse).  A
poll response is either a raised exception (network error, HTTP error
status via `raise_for_status`, or an unparsable body) or the parsed
`data` object, carrying the `status` string and the optional
`defaultDatasetId`.  A fetch response is either a raised exception or the
parsed list of dataset items.

Time: the loop condition `time.time() - start_time < max_wait` is
modelled with a clock that advances by the fixed `time.sleep(2)` interval
once per iteration, so the check before poll attempt `i` reads
`pollInterval * i < maxWait`. -/

/-- A transcript record, the loosely-typed result payload: optional
caption list (absent collapses to `[]`, as `result.get("captions", [])`
does), optional `text`, optional `title`. -/
structure Caption where
  text : Option (List Char)
  start : Option Int
  duration : Option Int
deriving DecidableEq

structure TranscriptRecord where
  captions : List Caption
  text : Option (List Char)
  title : Option (List Char)
deriving DecidableEq

/-- Response to the actor-run submission `POST`. -/
inductive SubmitResp where
  | netErr : SubmitResp
  | resp (status : Nat) (runId : Option String) : SubmitResp
deriving DecidableEq

/-- Response to one status poll `GET`. -/
inductive PollResp where
  | err : PollResp
  | ok (status : String) (datasetId : Option String) : PollResp
deriving DecidableEq

/-- Response to the dataset-items `GET`. -/
inductive FetchResp where
  | err : FetchResp
  | ok (items : List TranscriptRecord) : FetchResp
deriving DecidableEq

/-- Which of the three network interactions failed. -/
inductive Phase where
  | submitPhase | pollPhase | fetchPhase
deriving DecidableEq

/-- Final result of one driver invocation.  Every non-`success` value is a
fatal `sys.exit(1)` in the script; `crash` is the uncaught `KeyError` when
a `SUCCEEDED` poll body lacks `defaultDatasetId`. -/
inductive Outcome where
  | success (r : TranscriptRecord)
  | authError
  | quotaError
  | transportError (p : Phase)
  | remoteFailure (status : String)
  | localTimeout
  | emptyResult
  | crash
deriving DecidableEq

/-- `max_wait = 120` (source line 130). -/
def maxWait : Nat := 120

/-- `time.sleep(2)` interval (source line 146). -/
def pollInterval : Nat := 2

/-- Exit condition of the poll loop, before the dataset fetch. -/
inductive PollExit where
  | success (datasetId : Option String)
  | remote (status : String)
  | transport
  | timeout
deriving DecidableEq

/-- The poll loop (source lines 133-153), started at iteration `i`; the
second component counts the poll requests issued.  `SUCCEEDED` breaks out
of the loop; `FAILED`, `ABORTED` and `TIMED-OUT` exit the process; any
other status sleeps the fixed interval and polls again; when the elapsed
time reaches the budget the `while`-`else` branch reports a timeout. -/
def pollLoop (polls : Nat → PollResp) (i : Nat) : PollExit × Nat :=
  if _h : pollInterval * i < maxWait then
    match polls i with
    | .err => (.transport, 1)
    | .ok st _dsid =>
      if st = "SUCCEEDED" then (.success _dsid, 1)
      else if st = "FAILED" ∨ st = "ABORTED" ∨ st = "TIMED-OUT" then (.remote st, 1)
      else
        let r := pollLoop polls (i + 1)
        (r.1, r.2 + 1)
  else (.timeout, 0)
termination_by maxWait - pollInterval * i
decreasing_by simp only [maxWait, pollInterval] at *; omega

/-- Handling of the dataset fetch response (source lines 159-173): a
raised exception is a transport error, an empty item list is the
no-transcript exit, otherwise the first item is returned. -/
def fetchStep : FetchResp → Outcome
  | .err => .transportError .fetchPhase
  | .ok [] => .emptyResult
  | .ok (x :: _) => .success x

/-- `run_apify_actor` (source lines 79-173) over response oracles.  The
submission is issued exactly once; status 401 and 402 exit before
`raise_for_status`, which raises for codes in [400, 600); a body that
fails to parse raises inside the same `try` and is a transport error.
The second component counts poll requests issued. -/
def run_apify_actor (submit : SubmitResp) (polls : Nat → PollResp)
    (fetch : String → FetchResp) : Outcome × Nat :=
  match submit with
  | .netErr => (.transportError .submitPhase, 0)
  | .resp status body =>
    if status = 401 then (.authError, 0)
    else if status = 402 then (.quotaError, 0)
    else if 400 ≤ status ∧ status < 600 then (.transportError .submitPhase, 0)
    else
      match body with
      | none => (.transportError .submitPhase, 0)
      | some _ =>
        let r := pollLoop polls 0
        match r.1 with
        | .transport => (.transportError .pollPhase, r.2)
        | .timeout => (.localTimeout, r.2)
        | .remote st => (.remoteFailure st, r.2)
        | .success none => (.crash, r.2)
        | .success (some did) => (fetchStep (fetch did), r.2)

/-! ## Normalizers (source lines 176-218) -/

/-- Python `str.strip()` whitespace. -/
def isPySpace (c : Char) : Bool :=
  c == ' ' || c == '\t' || c == '\n' || c == '\r' || c == '\x0b' || c == '\x0c'

/-- Python `str.strip()`. -/
def pyStrip (l : List Char) : List Char :=
  ((l.dropWhile isPySpace).reverse.dropWhile isPySpace).reverse

/-- Fixed placeholder of `format_transcript_text`. -/
def noContentMsg : List Char := "No transcript content found.".data

/-- `format_transcript_text` (source lines 176-191): with captions, the
newline-join of the stripped caption texts that are nonempty after
stripping; with no captions, the raw `text` field when present, else the
placeholder. -/
def format_transcript_text (result : TranscriptRecord) : List Char :=
  if result.captions.isEmpty then
    match result.text with
    | some t => t
    | none => noContentMsg
  else
    List.intercalate ['\n']
      ((result.captions.map (fun c => pyStrip (c.text.getD []))).filter
        (fun l => !l.isEmpty))

/-- One entry of the structured `transcript` list. -/
structure JsonEntry where
  start : Int
  duration : Int
  text : List Char
deriving DecidableEq

/-- The structured output record of `format_transcript_json`. -/
structure JsonOutput where
  video_id : List Char
  title : List Char
  transcript : List JsonEntry
  full_text : List Char
deriving DecidableEq

/-- The transcript entry built from one caption inside the loop of
`format_transcript_json`, when its stripped text is nonempty. -/
def captionEntry (c : Caption) : Option JsonEntry :=
  let t := pyStrip (c.text.getD [])
  if t.isEmpty then none else some ⟨c.start.getD 0, c.duration.getD 0, t⟩

/-- The contribution of one caption to the `texts` accumulator of the same
loop. -/
def captionText (c : Caption) : Option (List Char) :=
  let t := pyStrip (c.text.getD [])
  if t.isEmpty then none else some t

/-- `format_transcript_json` (source lines 194-218).  The script's single
loop appends to `texts` and to `output["transcript"]` under the same
nonempty-after-strip guard; the two `filterMap`s below are that loop's two
accumulators. -/
def format_transcript_json (result : TranscriptRecord) (video_id : List Char) :
    JsonOutput :=
  { video_id := video_id
    title := result.title.getD "Unknown".data
    transcript := result.captions.filterMap captionEntry
    full_text := List.intercalate [' '] (result.captions.filterMap captionText) }


/-- No suffix of `pre` is a proper spanning head (`youtu.` or `youtu.b`) of
the marker: decidable side condition for `marker_not_in_append`. -/
def noTailHazard (pre : List Char) : Bool :=
  (List.range (pre.length + 1)).all fun i =>
    decide (pre.drop i ≠ markerL.take 6) && decide (pre.drop i ≠ markerL.take 7)

/-- A well-formed bare token: exactly 11 identifier-class characters. -/
def validTok (t : List Char) : Prop :=
  t.length = 11 ∧ ∀ c ∈ t, classChar c = true

instance (t : List Char) : Decidable (validTok t) := by
  unfold validTok; infer_instance

/-- The five recognized locator shapes around one token. -/
def shortLinkUrl (t : List Char) : List Char := "https://youtu.be/".data ++ t

def watchUrl (t : List Char) : List Char :=
  "https://www.youtube.com/watch?v=".data ++ t

def embedUrl (t : List Char) : List Char :=
  "https://www.youtube.com/embed/".data ++ t

def legacyVUrl (t : List Char) : List Char :=
  "https://www.youtube.com/v/".data ++ t

def shortsUrl (t : List Char) : List Char :=
  "https://www.youtube.com/shorts/".data ++ t

/-- A poll response that keeps the loop going: a parsed body whose status
is none of the four recognized strings. -/
def nonTerminalResp : PollResp → Prop
  | .err => False
  | .ok st _ => st ≠ "SUCCEEDED" ∧ st ≠ "FAILED" ∧ st ≠ "ABORTED" ∧
      st ≠ "TIMED-OUT"

instance (r : PollResp) : Decidable (nonTerminalResp r) := by
  cases r <;> simp only [nonTerminalResp] <;> infer_instance

/-- Response oracles used to exercise the driver on concrete runs. -/
def pollsSucc : Nat → PollResp := fun _ => .ok "SUCCEEDED" (some "D")

def pollsFail : Nat → PollResp := fun _ => .ok "FAILED" none

def pollsErr : Nat → PollResp := fun _ => .err

def pollsRun : Nat → PollResp := fun _ => .ok "RUNNING" none

def pollsRunOnce : Nat → PollResp :=
  fun j => if j = 0 then .ok "RUNNING" none else .ok "SUCCEEDED" none

def sampleRec : TranscriptRecord := ⟨[], none, none⟩

def fetchOne : String → FetchResp := fun _ => .ok [sampleRec]

def fetchEmpty : String → FetchResp := fun _ => .ok []

def fetchErr : String → FetchResp := fun _ => .err

/-- Records exercising the normalizers on the documented examples. -/
def exTextRec : TranscriptRecord :=
  ⟨[⟨some "a".data, none, none⟩, ⟨some " b ".data, none, none⟩,
    ⟨some "".data, none, none⟩], none, none⟩

def exRawRec : TranscriptRecord := ⟨[], some "raw text".data, none⟩

def exJsonRec : TranscriptRecord :=
  ⟨[⟨some "hi".data, some 1, some 2⟩, ⟨some "".data, some 3, some 1⟩],
    none, none⟩

/-! ## Supporting lemmas about the string scanners -/

/-- Class characters avoid every non-class delimiter of a list. -/
theorem class_notmem (t : List Char) (ht : ∀ c ∈ t, classChar c = true)
    (ds : List Char) (hds : ds.all (fun d => !classChar d) = true) :
    ∀ c ∈ t, c ∉ ds := by
  intro c hc hmem
  have h1 := ht c hc
  have h2 := List.all_eq_true.mp hds c hmem
  simp only [Bool.not_eq_true'] at h2
  simp [h1] at h2


theorem leadsWith_nil_iff (p : List Char) : leadsWith p [] = true ↔ p = [] := by
  cases p <;> simp [leadsWith]

theorem leadsWith_iff_take (p : List Char) : ∀ s : List Char,
    leadsWith p s = true ↔ s.take p.length = p := by
  induction p with
  | nil => intro s; simp [leadsWith]
  | cons a p ih =>
    intro s
    cases s with
    | nil => simp [leadsWith]
    | cons c cs =>
      simp only [leadsWith, Bool.and_eq_true, beq_iff_eq, ih, List.length_cons,
        List.take_succ_cons, List.cons.injEq]
      exact ⟨fun ⟨h1, h2⟩ => ⟨h1.symm, h2⟩, fun ⟨h1, h2⟩ => ⟨h1.symm, h2⟩⟩

theorem leadsWith_append (p s t : List Char) (h : leadsWith p s = true) :
    leadsWith p (s ++ t) = true := by
  induction p generalizing s with
  | nil => simp [leadsWith]
  | cons a p ih =>
    cases s with
    | nil => simp [leadsWith_nil_iff] at h
    | cons c cs =>
      simp only [leadsWith, Bool.and_eq_true] at h
      simpa [leadsWith, h.1] using ih cs h.2

theorem leadsWith_mem (p : List Char) : ∀ s, leadsWith p s = true →
    ∀ c ∈ p, c ∈ s := by
  induction p with
  | nil => intro s _ c hc; simp at hc
  | cons a p ih =>
    intro s h c hc
    cases s with
    | nil => simp [leadsWith_nil_iff] at h
    | cons b bs =>
      simp only [leadsWith, Bool.and_eq_true, beq_iff_eq] at h
      rcases List.mem_cons.mp hc with rfl | hc
      · simp [h.1]
      · exact List.mem_cons_of_mem _ (ih bs h.2 c hc)

theorem isSubstr_iff (pat : List Char) : ∀ s,
    isSubstr pat s = true ↔ ∃ i, leadsWith pat (s.drop i) = true := by
  intro s
  induction s with
  | nil =>
    constructor
    · intro h; exact ⟨0, h⟩
    · rintro ⟨i, h⟩; simpa [isSubstr] using h
  | cons c cs ih =>
    simp only [isSubstr, Bool.or_eq_true, ih]
    constructor
    · rintro (h | ⟨i, h⟩)
      · exact ⟨0, h⟩
      · exact ⟨i + 1, by simpa using h⟩
    · rintro ⟨i, h⟩
      cases i with
      | zero => exact Or.inl (by simpa using h)
      | succ j => exact Or.inr ⟨j, by simpa using h⟩

theorem isSubstr_append_left (pat s t : List Char) (h : isSubstr pat s = true) :
    isSubstr pat (s ++ t) = true := by
  rcases (isSubstr_iff pat s).mp h with ⟨i, hi⟩
  by_cases hle : i ≤ s.length
  · refine (isSubstr_iff pat (s ++ t)).mpr ⟨i, ?_⟩
    rw [List.drop_append_eq_append_drop, Nat.sub_eq_zero_of_le hle, List.drop_zero]
    exact leadsWith_append _ _ _ hi
  · have hnil : s.drop i = [] := List.drop_eq_nil_of_le (le_of_not_le hle)
    rw [hnil, leadsWith_nil_iff] at hi
    subst hi
    exact (isSubstr_iff [] (s ++ t)).mpr ⟨0, by simp [leadsWith]⟩

theorem isSubstr_mem (pat s : List Char) (h : isSubstr pat s = true) :
    ∀ c ∈ pat, c ∈ s := by
  rcases (isSubstr_iff pat s).mp h with ⟨i, hi⟩
  intro c hc
  exact List.drop_subset i s (leadsWith_mem pat _ hi c hc)

theorem class_ne (c d : Char) (hc : classChar c = true) (hd : classChar d = false) :
    c ≠ d := by
  intro h; rw [h, hd] at hc; exact Bool.false_ne_true hc

theorem noDelim (d : Char) (t : List Char) (hd : classChar d = false)
    (ht : ∀ c ∈ t, classChar c = true) : d ∉ t := by
  intro hmem
  exact Bool.false_ne_true ((hd.symm.trans (ht d hmem)))

theorem takeUntilAny_nomem (ds : List Char) : ∀ t : List Char,
    (∀ c ∈ t, c ∉ ds) → takeUntilAny ds t = t := by
  intro t
  induction t with
  | nil => intro _; rfl
  | cons c cs ih =>
    intro h
    rw [takeUntilAny, if_neg (h c (List.mem_cons_self c cs))]
    rw [ih (fun x hx => h x (List.mem_cons_of_mem _ hx))]

theorem takeUntilAny_append_nomem (ds : List Char) : ∀ p t : List Char,
    (∀ c ∈ p, c ∉ ds) →
    takeUntilAny ds (p ++ t) = p ++ takeUntilAny ds t := by
  intro p t
  induction p with
  | nil => intro _; rfl
  | cons c cs ih =>
    intro h
    rw [List.cons_append, takeUntilAny, if_neg (h c (List.mem_cons_self c cs))]
    rw [ih (fun x hx => h x (List.mem_cons_of_mem _ hx))]
    rfl

theorem splitFirst_nomem (d : Char) : ∀ t : List Char, d ∉ t →
    splitFirst d t = none := by
  intro t
  induction t with
  | nil => intro _; rfl
  | cons c cs ih =>
    intro h
    have hne : (c == d) = false := by
      simp only [beq_eq_false_iff_ne]
      intro he; exact h (he ▸ List.mem_cons_self c cs)
    rw [splitFirst, hne]
    simp only [Bool.false_eq_true, if_false]
    rw [ih (fun hx => h (List.mem_cons_of_mem _ hx))]

theorem splitAmp_nomem : ∀ t : List Char, '&' ∉ t → splitAmp t = [t] := by
  intro t
  induction t with
  | nil => intro _; rfl
  | cons c cs ih =>
    intro h
    have hne : (c == '&') = false := by
      simp only [beq_eq_false_iff_ne]
      intro he; exact h (he ▸ List.mem_cons_self c cs)
    rw [splitAmp, ih (fun hx => h (List.mem_cons_of_mem _ hx)), hne]
    simp

theorem marker_length : markerL.length = 8 := by decide

/-- An occurrence of `youtu.be` in `pre ++ t` with `t` made of identifier
class characters must lie inside `pre` or end with a hazardous suffix of
`pre`: the marker has a `.` everywhere except in its last two characters,
and class characters exclude `.`. -/
theorem marker_not_in_append (pre t : List Char)
    (h1 : isSubstr markerL pre = false)
    (h2 : noTailHazard pre = true)
    (ht : ∀ c ∈ t, classChar c = true) :
    isSubstr markerL (pre ++ t) = false := by
  by_contra hcon
  have htrue : isSubstr markerL (pre ++ t) = true := by
    cases hval : isSubstr markerL (pre ++ t)
    · exact absurd hval hcon
    · rfl
  obtain ⟨i, hlw⟩ := (isSubstr_iff _ _).mp htrue
  rw [leadsWith_iff_take, marker_length] at hlw
  by_cases hin : i + 8 ≤ pre.length
  · -- the whole occurrence is inside pre
    have hdrop : (pre ++ t).drop i = pre.drop i ++ t := by
      rw [List.drop_append_eq_append_drop, Nat.sub_eq_zero_of_le (by omega),
        List.drop_zero]
    have hlenA : 8 ≤ (pre.drop i).length := by
      rw [List.length_drop]; omega
    rw [hdrop, List.take_append_eq_append_take,
      Nat.sub_eq_zero_of_le hlenA, List.take_zero, List.append_nil] at hlw
    have : isSubstr markerL pre = true := by
      refine (isSubstr_iff _ _).mpr ⟨i, ?_⟩
      rw [leadsWith_iff_take, marker_length]
      exact hlw
    rw [h1] at this
    exact Bool.false_ne_true this
  · -- the occurrence reaches into t
    have hk7 : pre.length - i ≤ 7 := by omega
    have hdrop : (pre ++ t).drop i = pre.drop i ++ t.drop (i - pre.length) :=
      List.drop_append_eq_append_drop
    have htclass : ∀ c ∈ t.drop (i - pre.length), classChar c = true :=
      fun c hc => ht c (List.drop_subset _ t hc)
    rw [hdrop] at hlw
    have hlenA : (pre.drop i).length = pre.length - i := by
      rw [List.length_drop]
    -- head part: pre.drop i equals the first (pre.length - i) marker chars
    have htake : pre.drop i = markerL.take (pre.length - i) := by
      have hcz := congrArg (List.take (pre.length - i)) hlw
      rw [List.take_take, min_eq_left (by omega)] at hcz
      have hA : (pre.drop i ++ t.drop (i - pre.length)).take (pre.length - i) =
          pre.drop i := by
        rw [← hlenA, List.take_left]
      rw [hA] at hcz
      exact hcz
    -- tail part: the rest of the marker is an initial segment of t
    have htail : (t.drop (i - pre.length)).take (8 - (pre.length - i)) =
        markerL.drop (pre.length - i) := by
      have hcz := congrArg (List.drop (pre.length - i)) hlw
      rw [List.drop_take, List.drop_append_eq_append_drop, hlenA, Nat.sub_self,
        List.drop_zero, List.drop_eq_nil_of_le (le_of_eq hlenA),
        List.nil_append] at hcz
      exact hcz
    have hdotfree : ∀ k : Nat, k ≤ 5 → pre.length - i = k → False := by
      intro k hk5 hkeq
      have hdotmem : '.' ∈ markerL.drop k := by
        interval_cases k <;> decide
      rw [← hkeq, ← htail] at hdotmem
      have h1m : '.' ∈ t.drop (i - pre.length) := List.take_subset _ _ hdotmem
      have h2m : '.' ∈ t := List.drop_subset _ t h1m
      exact absurd (ht '.' h2m) (by decide)
    have hhaz : ∀ k : Nat, (k = 6 ∨ k = 7) → pre.length - i = k → False := by
      intro k hk67 hkeq
      have hiL : i < pre.length := by omega
      have hmemrange : i ∈ List.range (pre.length + 1) :=
        List.mem_range.mpr (by omega)
      have hz := (List.all_eq_true.mp h2) i hmemrange
      simp only [Bool.and_eq_true, decide_eq_true_eq] at hz
      rcases hk67 with rfl | rfl
      · exact hz.1 (by rw [htake, hkeq])
      · exact hz.2 (by rw [htake, hkeq])
    rcases Nat.lt_or_ge (pre.length - i) 6 with h6 | h6
    · exact hdotfree (pre.length - i) (by omega) rfl
    · exact hhaz (pre.length - i) (by omega) rfl

/-- A successful `{11}`-group grab is 11 class characters. -/
theorem take11Class_valid (u tok : List Char) (h : take11Class u = some tok) :
    tok.length = 11 ∧ tok.all classChar = true := by
  simp only [take11Class] at h
  split at h
  · rename_i hcond
    simp only [Bool.and_eq_true, beq_iff_eq] at hcond
    cases h
    exact hcond
  · cases h

theorem matchAtEV_valid (s tok : List Char) (h : matchAtEV s = some tok) :
    tok.length = 11 ∧ tok.all classChar = true := by
  unfold matchAtEV at h
  cases he : (if leadsWith embedPat s then take11Class (s.drop 7) else none) with
  | some tk =>
    rw [he] at h
    obtain rfl : tk = tok := Option.some.inj h
    split at he
    · exact take11Class_valid _ _ he
    · simp at he
  | none =>
    rw [he] at h
    have h2 : (if leadsWith vPat s then take11Class (s.drop 3) else none) =
        some tok := h
    split at h2
    · exact take11Class_valid _ _ h2
    · simp at h2

theorem matchAtShorts_valid (s tok : List Char) (h : matchAtShorts s = some tok) :
    tok.length = 11 ∧ tok.all classChar = true := by
  unfold matchAtShorts at h
  split at h
  · exact take11Class_valid _ _ h
  · cases h

theorem searchEmbedV_valid : ∀ s tok, searchEmbedV s = some tok →
    tok.length = 11 ∧ tok.all classChar = true := by
  intro s
  induction s with
  | nil => intro tok h; cases h
  | cons c cs ih =>
    intro tok h
    rw [searchEmbedV] at h
    cases he : matchAtEV (c :: cs) with
    | some tk =>
      rw [he] at h
      obtain rfl : tk = tok := Option.some.inj h
      exact matchAtEV_valid _ _ he
    | none =>
      rw [he] at h
      have h2 : searchEmbedV cs = some tok := h
      exact ih tok h2

theorem searchShorts_valid : ∀ s tok, searchShorts s = some tok →
    tok.length = 11 ∧ tok.all classChar = true := by
  intro s
  induction s with
  | nil => intro tok h; cases h
  | cons c cs ih =>
    intro tok h
    rw [searchShorts] at h
    cases he : matchAtShorts (c :: cs) with
    | some tk =>
      rw [he] at h
      obtain rfl : tk = tok := Option.some.inj h
      exact matchAtShorts_valid _ _ he
    | none =>
      rw [he] at h
      have h2 : searchShorts cs = some tok := h
      exact ih tok h2

/-- A pattern containing `/` never leads a list of class characters. -/
theorem leadsWith_slash_class (p t : List Char) (hp : '/' ∈ p)
    (ht : ∀ c ∈ t, classChar c = true) : leadsWith p t = false := by
  cases hl : leadsWith p t
  · rfl
  · exact absurd (ht '/' (leadsWith_mem p t hl '/' hp)) (by decide)

/-- The `/(embed|v)/` search finds nothing in pure class characters. -/
theorem searchEmbedV_class_none : ∀ t, (∀ c ∈ t, classChar c = true) →
    searchEmbedV t = none := by
  intro t
  induction t with
  | nil => intro _; rfl
  | cons c cs ih =>
    intro h
    have h1 : leadsWith embedPat (c :: cs) = false :=
      leadsWith_slash_class _ _ (by decide) h
    have h2 : leadsWith vPat (c :: cs) = false :=
      leadsWith_slash_class _ _ (by decide) h
    have hm : matchAtEV (c :: cs) = none := by
      unfold matchAtEV
      rw [h1, h2]
      simp
    rw [searchEmbedV, hm]
    exact ih (fun x hx => h x (List.mem_cons_of_mem _ hx))

/-- The `/shorts/` search finds nothing in pure class characters. -/
theorem searchShorts_class_none : ∀ t, (∀ c ∈ t, classChar c = true) →
    searchShorts t = none := by
  intro t
  induction t with
  | nil => intro _; rfl
  | cons c cs ih =>
    intro h
    have h1 : leadsWith shortsPat (c :: cs) = false :=
      leadsWith_slash_class _ _ (by decide) h
    have hm : matchAtShorts (c :: cs) = none := by
      unfold matchAtShorts
      rw [h1]
      simp
    rw [searchShorts, hm]
    exact ih (fun x hx => h x (List.mem_cons_of_mem _ hx))

/-- The marker contains a dot, so it is no substring of class characters. -/
theorem isSubstr_marker_class (t : List Char)
    (ht : ∀ c ∈ t, classChar c = true) : isSubstr markerL t = false := by
  cases hs : isSubstr markerL t
  · rfl
  · exact absurd (ht '.' (isSubstr_mem _ _ hs '.' (by decide))) (by decide)

/-- `splitFirst` over an append, when the delimiter occurs in the head
part. -/
theorem splitFirst_append_found (d : Char) : ∀ (p a b t : List Char),
    splitFirst d p = some (a, b) →
    splitFirst d (p ++ t) = some (a, b ++ t) := by
  intro p
  induction p with
  | nil => intro a b t h; cases h
  | cons c cs ih =>
    intro a b t h
    rw [splitFirst] at h
    rw [List.cons_append, splitFirst]
    cases hcd : (c == d) with
    | true =>
      rw [hcd] at h
      simp only [if_true] at h
      obtain ⟨rfl, rfl⟩ := Prod.mk.injEq _ _ _ _ |>.mp (Option.some.inj h)
      rw [if_pos rfl]
    | false =>
      rw [hcd] at h
      simp only [Bool.false_eq_true, if_false] at h ⊢
      cases hin : splitFirst d cs with
      | none => rw [hin] at h; cases h
      | some pr =>
        rw [hin] at h
        have h2 : some (c :: pr.1, pr.2) = some (a, b) := h
        obtain ⟨rfl, rfl⟩ := Prod.mk.injEq _ _ _ _ |>.mp (Option.some.inj h2)
        rw [ih pr.1 pr.2 t (by rw [hin])]

/-- `takeUntilAny` and `dropUntilAny` over an append, when a delimiter
occurs in the head part. -/
theorem untilAny_append_hit (ds : List Char) : ∀ (p t : List Char),
    (∃ c ∈ p, c ∈ ds) →
    takeUntilAny ds (p ++ t) = takeUntilAny ds p ∧
    dropUntilAny ds (p ++ t) = dropUntilAny ds p ++ t := by
  intro p
  induction p with
  | nil => intro t h; simp at h
  | cons c cs ih =>
    intro t h
    by_cases hc : c ∈ ds
    · constructor
      · rw [List.cons_append, takeUntilAny, if_pos hc, takeUntilAny, if_pos hc]
      · rw [List.cons_append, dropUntilAny, if_pos hc, dropUntilAny, if_pos hc]
        rfl
    · have h2 : ∃ x ∈ cs, x ∈ ds := by
        rcases h with ⟨x, hx, hxds⟩
        rcases List.mem_cons.mp hx with rfl | hxcs
        · exact absurd hxds hc
        · exact ⟨x, hxcs, hxds⟩
      obtain ⟨ih1, ih2⟩ := ih t h2
      constructor
      · rw [List.cons_append, takeUntilAny, if_neg hc, takeUntilAny, if_neg hc,
          ih1]
      · rw [List.cons_append, dropUntilAny, if_neg hc, dropUntilAny, if_neg hc,
          ih2]

theorem urlsplit_watch (t : List Char) (ht : ∀ c ∈ t, classChar c = true) :
    urlsplitPQN (watchUrl t) =
      ("www.youtube.com".data, "/watch".data, "v=".data ++ t) := by
  have hds : dropScheme ("https://www.youtube.com/watch?v=".data ++ t) =
      "//www.youtube.com/watch?v=".data ++ t := by
    unfold dropScheme
    rw [splitFirst_append_found ':' _ "https".data
      "//www.youtube.com/watch?v=".data t (by decide)]
    simp only [show schemeOk "https".data = true from by decide, if_true]
  have hlw : leadsWith ['/', '/'] ("//www.youtube.com/watch?v=".data ++ t) =
      true := leadsWith_append _ _ _ (by decide)
  have hdrop2 : ("//www.youtube.com/watch?v=".data ++ t).drop 2 =
      "www.youtube.com/watch?v=".data ++ t := by
    rw [List.drop_append_eq_append_drop]
    rw [show List.drop 2 "//www.youtube.com/watch?v=".data =
      "www.youtube.com/watch?v=".data from by decide]
    rw [show 2 - ("//www.youtube.com/watch?v=".data).length = 0 from by decide]
    rw [List.drop_zero]
  obtain ⟨htk, hdr⟩ := untilAny_append_hit netDelims
    "www.youtube.com/watch?v=".data t (by decide)
  have hfrag : takeUntilAny ['#'] ("/watch?v=".data ++ t) =
      "/watch?v=".data ++ t := by
    rw [takeUntilAny_append_nomem _ _ _ (by decide),
      takeUntilAny_nomem _ t (class_notmem t ht _ (by decide))]
  have hq : splitFirst '?' ("/watch?v=".data ++ t) =
      some ("/watch".data, "v=".data ++ t) :=
    splitFirst_append_found '?' _ _ _ t (by decide)
  unfold watchUrl
  simp only [urlsplitPQN, hds, hlw, if_true, hdrop2, htk, hdr,
    show dropUntilAny netDelims "www.youtube.com/watch?v=".data =
      "/watch?v=".data from by decide, hfrag, hq,
    show takeUntilAny netDelims "www.youtube.com/watch?v=".data =
      "www.youtube.com".data from by decide]

theorem qsPairs_vEq (t : List Char) (hlen : t.length = 11)
    (ht : ∀ c ∈ t, classChar c = true) :
    qsPairs ("v=".data ++ t) = [(['v'], t)] := by
  have hamp : splitAmp ("v=".data ++ t) = ["v=".data ++ t] := by
    apply splitAmp_nomem
    intro hmem
    rcases List.mem_append.mp hmem with h | h
    · revert h; decide
    · exact absurd (ht '&' h) (by decide)
  have hsf : splitFirst '=' ("v=".data ++ t) = some (['v'], [] ++ t) :=
    splitFirst_append_found '=' _ _ _ t (by decide)
  have htne : t.isEmpty = false := by
    cases t with
    | nil => simp at hlen
    | cons c cs => rfl
  unfold qsPairs
  rw [hamp]
  simp only [List.filterMap_cons, List.filterMap_nil, hsf, List.nil_append,
    htne, Bool.false_eq_true, if_false]

theorem extract_watch (t : List Char) (hv : validTok t) :
    extract_video_id (watchUrl t) = some t := by
  obtain ⟨hlen, ht⟩ := hv
  have hm : isSubstr markerL (watchUrl t) = false :=
    marker_not_in_append "https://www.youtube.com/watch?v=".data t
      (by decide) (by decide) ht
  have hsplit := urlsplit_watch t ht
  have hqp := qsPairs_vEq t hlen ht
  have hhv : hasV ("v=".data ++ t) = true := by
    unfold hasV; rw [hqp]; simp
  have hfv : firstV ("v=".data ++ t) = t := by
    unfold firstV; rw [hqp]; simp
  unfold extract_video_id
  simp only [hm, Bool.false_eq_true, if_false, hsplit, hhv, if_true, hfv]

theorem take11Class_self (t : List Char) (hlen : t.length = 11)
    (ht : ∀ c ∈ t, classChar c = true) : take11Class t = some t := by
  unfold take11Class
  have h1 : t.take 11 = t := by rw [← hlen]; exact List.take_length t
  have hc : (t.length == 11 && t.all classChar) = true := by
    rw [Bool.and_eq_true]
    exact ⟨beq_iff_eq.mpr hlen, List.all_eq_true.mpr ht⟩
  rw [h1, if_pos hc]

theorem dropWhile_slash_class (t : List Char)
    (ht : ∀ c ∈ t, classChar c = true) :
    t.dropWhile (fun c => c == '/') = t := by
  cases t with
  | nil => rfl
  | cons c cs =>
    rw [List.dropWhile_cons, if_neg]
    intro hc
    exact class_ne c '/' (ht c (List.mem_cons_self c cs)) (by decide)
      (beq_iff_eq.mp hc)

theorem urlsplit_shortlink (t : List Char)
    (ht : ∀ c ∈ t, classChar c = true) :
    urlsplitPQN (shortLinkUrl t) = ("youtu.be".data, "/".data ++ t, []) := by
  have hds : dropScheme ("https://youtu.be/".data ++ t) =
      "//youtu.be/".data ++ t := by
    unfold dropScheme
    rw [splitFirst_append_found ':' _ "https".data "//youtu.be/".data t
      (by decide)]
    simp only [show schemeOk "https".data = true from by decide, if_true]
  have hlw : leadsWith ['/', '/'] ("//youtu.be/".data ++ t) = true :=
    leadsWith_append _ _ _ (by decide)
  have hdrop2 : ("//youtu.be/".data ++ t).drop 2 = "youtu.be/".data ++ t := by
    rw [List.drop_append_eq_append_drop]
    rw [show List.drop 2 "//youtu.be/".data = "youtu.be/".data from by decide]
    rw [show 2 - ("//youtu.be/".data).length = 0 from by decide]
    rw [List.drop_zero]
  obtain ⟨htk, hdr⟩ := untilAny_append_hit netDelims "youtu.be/".data t
    (by decide)
  have hfrag : takeUntilAny ['#'] ("/".data ++ t) = "/".data ++ t := by
    rw [takeUntilAny_append_nomem _ _ _ (by decide),
      takeUntilAny_nomem _ t (class_notmem t ht _ (by decide))]
  have hq : splitFirst '?' ("/".data ++ t) = none := by
    apply splitFirst_nomem
    intro hmem
    rcases List.mem_append.mp hmem with h | h
    · revert h; decide
    · exact absurd (ht '?' h) (by decide)
  unfold shortLinkUrl
  simp only [urlsplitPQN, hds, hlw, if_true, hdrop2, htk, hdr,
    show dropUntilAny netDelims "youtu.be/".data = "/".data from by decide,
    show takeUntilAny netDelims "youtu.be/".data = "youtu.be".data
      from by decide, hfrag, hq]

theorem extract_shortlink (t : List Char) (hv : validTok t) :
    extract_video_id (shortLinkUrl t) = some t := by
  obtain ⟨hlen, ht⟩ := hv
  have hm : isSubstr markerL (shortLinkUrl t) = true :=
    isSubstr_append_left markerL "https://youtu.be/".data t (by decide)
  have hsplit := urlsplit_shortlink t ht
  unfold extract_video_id
  simp only [hm, if_true, hsplit]
  rw [show ("/".data ++ t : List Char) = '/' :: t from rfl]
  rw [List.dropWhile_cons, if_pos (by decide)]
  rw [dropWhile_slash_class t ht]
  rw [takeUntilAny_nomem _ t (class_notmem t ht _ (by decide))]

theorem urlsplit_embed (t : List Char) (ht : ∀ c ∈ t, classChar c = true) :
    urlsplitPQN (embedUrl t) =
      ("www.youtube.com".data, "/embed/".data ++ t, []) := by
  have hds : dropScheme ("https://www.youtube.com/embed/".data ++ t) =
      "//www.youtube.com/embed/".data ++ t := by
    unfold dropScheme
    rw [splitFirst_append_found ':' _ "https".data
      "//www.youtube.com/embed/".data t (by decide)]
    simp only [show schemeOk "https".data = true from by decide, if_true]
  have hlw : leadsWith ['/', '/'] ("//www.youtube.com/embed/".data ++ t) =
      true := leadsWith_append _ _ _ (by decide)
  have hdrop2 : ("//www.youtube.com/embed/".data ++ t).drop 2 =
      "www.youtube.com/embed/".data ++ t := by
    rw [List.drop_append_eq_append_drop]
    rw [show List.drop 2 "//www.youtube.com/embed/".data =
      "www.youtube.com/embed/".data from by decide]
    rw [show 2 - ("//www.youtube.com/embed/".data).length = 0 from by decide]
    rw [List.drop_zero]
  obtain ⟨htk, hdr⟩ := untilAny_append_hit netDelims
    "www.youtube.com/embed/".data t (by decide)
  have hfrag : takeUntilAny ['#'] ("/embed/".data ++ t) =
      "/embed/".data ++ t := by
    rw [takeUntilAny_append_nomem _ _ _ (by decide),
      takeUntilAny_nomem _ t (class_notmem t ht _ (by decide))]
  have hq : splitFirst '?' ("/embed/".data ++ t) = none := by
    apply splitFirst_nomem
    intro hmem
    rcases List.mem_append.mp hmem with h | h
    · revert h; decide
    · exact absurd (ht '?' h) (by decide)
  unfold embedUrl
  simp only [urlsplitPQN, hds, hlw, if_true, hdrop2, htk, hdr,
    show dropUntilAny netDelims "www.youtube.com/embed/".data =
      "/embed/".data from by decide,
    show takeUntilAny netDelims "www.youtube.com/embed/".data =
      "www.youtube.com".data from by decide, hfrag, hq]

theorem urlsplit_legacyV (t : List Char) (ht : ∀ c ∈ t, classChar c = true) :
    urlsplitPQN (legacyVUrl t) =
      ("www.youtube.com".data, "/v/".data ++ t, []) := by
  have hds : dropScheme ("https://www.youtube.com/v/".data ++ t) =
      "//www.youtube.com/v/".data ++ t := by
    unfold dropScheme
    rw [splitFirst_append_found ':' _ "https".data
      "//www.youtube.com/v/".data t (by decide)]
    simp only [show schemeOk "https".data = true from by decide, if_true]
  have hlw : leadsWith ['/', '/'] ("//www.youtube.com/v/".data ++ t) = true :=
    leadsWith_append _ _ _ (by decide)
  have hdrop2 : ("//www.youtube.com/v/".data ++ t).drop 2 =
      "www.youtube.com/v/".data ++ t := by
    rw [List.drop_append_eq_append_drop]
    rw [show List.drop 2 "//www.youtube.com/v/".data =
      "www.youtube.com/v/".data from by decide]
    rw [show 2 - ("//www.youtube.com/v/".data).length = 0 from by decide]
    rw [List.drop_zero]
  obtain ⟨htk, hdr⟩ := untilAny_append_hit netDelims
    "www.youtube.com/v/".data t (by decide)
  have hfrag : takeUntilAny ['#'] ("/v/".data ++ t) = "/v/".data ++ t := by
    rw [takeUntilAny_append_nomem _ _ _ (by decide),
      takeUntilAny_nomem _ t (class_notmem t ht _ (by decide))]
  have hq : splitFirst '?' ("/v/".data ++ t) = none := by
    apply splitFirst_nomem
    intro hmem
    rcases List.mem_append.mp hmem with h | h
    · revert h; decide
    · exact absurd (ht '?' h) (by decide)
  unfold legacyVUrl
  simp only [urlsplitPQN, hds, hlw, if_true, hdrop2, htk, hdr,
    show dropUntilAny netDelims "www.youtube.com/v/".data = "/v/".data
      from by decide,
    show takeUntilAny netDelims "www.youtube.com/v/".data =
      "www.youtube.com".data from by decide, hfrag, hq]

theorem urlsplit_shorts (t : List Char) (ht : ∀ c ∈ t, classChar c = true) :
    urlsplitPQN (shortsUrl t) =
      ("www.youtube.com".data, "/shorts/".data ++ t, []) := by
  have hds : dropScheme ("https://www.youtube.com/shorts/".data ++ t) =
      "//www.youtube.com/shorts/".data ++ t := by
    unfold dropScheme
    rw [splitFirst_append_found ':' _ "https".data
      "//www.youtube.com/shorts/".data t (by decide)]
    simp only [show schemeOk "https".data = true from by decide, if_true]
  have hlw : leadsWith ['/', '/'] ("//www.youtube.com/shorts/".data ++ t) =
      true := leadsWith_append _ _ _ (by decide)
  have hdrop2 : ("//www.youtube.com/shorts/".data ++ t).drop 2 =
      "www.youtube.com/shorts/".data ++ t := by
    rw [List.drop_append_eq_append_drop]
    rw [show List.drop 2 "//www.youtube.com/shorts/".data =
      "www.youtube.com/shorts/".data from by decide]
    rw [show 2 - ("//www.youtube.com/shorts/".data).length = 0 from by decide]
    rw [List.drop_zero]
  obtain ⟨htk, hdr⟩ := untilAny_append_hit netDelims
    "www.youtube.com/shorts/".data t (by decide)
  have hfrag : takeUntilAny ['#'] ("/shorts/".data ++ t) =
      "/shorts/".data ++ t := by
    rw [takeUntilAny_append_nomem _ _ _ (by decide),
      takeUntilAny_nomem _ t (class_notmem t ht _ (by decide))]
  have hq : splitFirst '?' ("/shorts/".data ++ t) = none := by
    apply splitFirst_nomem
    intro hmem
    rcases List.mem_append.mp hmem with h | h
    · revert h; decide
    · exact absurd (ht '?' h) (by decide)
  unfold shortsUrl
  simp only [urlsplitPQN, hds, hlw, if_true, hdrop2, htk, hdr,
    show dropUntilAny netDelims "www.youtube.com/shorts/".data =
      "/shorts/".data from by decide,
    show takeUntilAny netDelims "www.youtube.com/shorts/".data =
      "www.youtube.com".data from by decide, hfrag, hq]

theorem searchEmbedV_embedPath (t : List Char) (hlen : t.length = 11)
    (ht : ∀ c ∈ t, classChar c = true) :
    searchEmbedV ("/embed/".data ++ t) = some t := by
  rw [show ("/embed/".data ++ t : List Char) =
    '/' :: 'e' :: 'm' :: 'b' :: 'e' :: 'd' :: '/' :: t from rfl]
  rw [searchEmbedV]
  have hm : matchAtEV ('/' :: 'e' :: 'm' :: 'b' :: 'e' :: 'd' :: '/' :: t) =
      some t := by
    unfold matchAtEV
    have hl : leadsWith embedPat
        ('/' :: 'e' :: 'm' :: 'b' :: 'e' :: 'd' :: '/' :: t) = true := by
      simp [leadsWith, embedPat]
    rw [hl]
    simp only [if_true]
    rw [show List.drop 7 ('/' :: 'e' :: 'm' :: 'b' :: 'e' :: 'd' :: '/' :: t) =
      t from rfl]
    rw [take11Class_self t hlen ht]
  rw [hm]

theorem searchEmbedV_vPath (t : List Char) (hlen : t.length = 11)
    (ht : ∀ c ∈ t, classChar c = true) :
    searchEmbedV ("/v/".data ++ t) = some t := by
  rw [show ("/v/".data ++ t : List Char) = '/' :: 'v' :: '/' :: t from rfl]
  rw [searchEmbedV]
  have hm : matchAtEV ('/' :: 'v' :: '/' :: t) = some t := by
    unfold matchAtEV
    have hle : leadsWith embedPat ('/' :: 'v' :: '/' :: t) = false := by
      simp [leadsWith, embedPat]
    have hlv : leadsWith vPat ('/' :: 'v' :: '/' :: t) = true := by
      simp [leadsWith, vPat]
    rw [hle]
    simp only [Bool.false_eq_true, if_false]
    rw [hlv]
    simp only [if_true]
    rw [show List.drop 3 ('/' :: 'v' :: '/' :: t) = t from rfl]
    rw [take11Class_self t hlen ht]
  rw [hm]

theorem searchEmbedV_shortsPath (t : List Char)
    (ht : ∀ c ∈ t, classChar c = true) :
    searchEmbedV ("/shorts/".data ++ t) = none := by
  have h1 : leadsWith ['e', 'm', 'b', 'e', 'd', '/'] t = false :=
    leadsWith_slash_class _ _ (by decide) ht
  have h2 : leadsWith ['v', '/'] t = false :=
    leadsWith_slash_class _ _ (by decide) ht
  have h3 := searchEmbedV_class_none t ht
  rw [show ("/shorts/".data ++ t : List Char) =
    '/' :: 's' :: 'h' :: 'o' :: 'r' :: 't' :: 's' :: '/' :: t from rfl]
  simp [searchEmbedV, matchAtEV, leadsWith, embedPat, vPat, h1, h2, h3]

theorem searchShorts_shortsPath (t : List Char) (hlen : t.length = 11)
    (ht : ∀ c ∈ t, classChar c = true) :
    searchShorts ("/shorts/".data ++ t) = some t := by
  rw [show ("/shorts/".data ++ t : List Char) =
    '/' :: 's' :: 'h' :: 'o' :: 'r' :: 't' :: 's' :: '/' :: t from rfl]
  rw [searchShorts]
  have hm : matchAtShorts
      ('/' :: 's' :: 'h' :: 'o' :: 'r' :: 't' :: 's' :: '/' :: t) =
      some t := by
    unfold matchAtShorts
    have hl : leadsWith shortsPat
        ('/' :: 's' :: 'h' :: 'o' :: 'r' :: 't' :: 's' :: '/' :: t) =
        true := by
      simp [leadsWith, shortsPat]
    rw [hl]
    simp only [if_true]
    rw [show List.drop 8
      ('/' :: 's' :: 'h' :: 'o' :: 'r' :: 't' :: 's' :: '/' :: t) = t
      from rfl]
    exact take11Class_self t hlen ht
  rw [hm]

theorem extract_embed (t : List Char) (hv : validTok t) :
    extract_video_id (embedUrl t) = some t := by
  obtain ⟨hlen, ht⟩ := hv
  have hm : isSubstr markerL (embedUrl t) = false :=
    marker_not_in_append "https://www.youtube.com/embed/".data t
      (by decide) (by decide) ht
  have hsplit := urlsplit_embed t ht
  have hse := searchEmbedV_embedPath t hlen ht
  unfold extract_video_id
  simp only [hm, Bool.false_eq_true, if_false, hsplit,
    show hasV ([] : List Char) = false from by decide, hse]

theorem extract_legacyV (t : List Char) (hv : validTok t) :
    extract_video_id (legacyVUrl t) = some t := by
  obtain ⟨hlen, ht⟩ := hv
  have hm : isSubstr markerL (legacyVUrl t) = false :=
    marker_not_in_append "https://www.youtube.com/v/".data t
      (by decide) (by decide) ht
  have hsplit := urlsplit_legacyV t ht
  have hse := searchEmbedV_vPath t hlen ht
  unfold extract_video_id
  simp only [hm, Bool.false_eq_true, if_false, hsplit,
    show hasV ([] : List Char) = false from by decide, hse]

theorem extract_shorts (t : List Char) (hv : validTok t) :
    extract_video_id (shortsUrl t) = some t := by
  obtain ⟨hlen, ht⟩ := hv
  have hm : isSubstr markerL (shortsUrl t) = false :=
    marker_not_in_append "https://www.youtube.com/shorts/".data t
      (by decide) (by decide) ht
  have hsplit := urlsplit_shorts t ht
  have hse := searchEmbedV_shortsPath t ht
  have hss := searchShorts_shortsPath t hlen ht
  unfold extract_video_id
  simp only [hm, Bool.false_eq_true, if_false, hsplit,
    show hasV ([] : List Char) = false from by decide, hse, hss]

theorem urlsplit_bare (t : List Char) (ht : ∀ c ∈ t, classChar c = true) :
    urlsplitPQN t = ([], t, []) := by
  have hds : dropScheme t = t := by
    unfold dropScheme
    rw [splitFirst_nomem ':' t (noDelim ':' t (by decide) ht)]
    rfl
  have hlw : leadsWith ['/', '/'] t = false :=
    leadsWith_slash_class _ _ (by decide) ht
  have hfrag : takeUntilAny ['#'] t = t :=
    takeUntilAny_nomem _ t (class_notmem t ht _ (by decide))
  have hq : splitFirst '?' t = none :=
    splitFirst_nomem '?' t (noDelim '?' t (by decide) ht)
  simp only [urlsplitPQN, hds, hlw, Bool.false_eq_true, if_false, hfrag, hq]

theorem extract_bare (t : List Char) (hv : validTok t) :
    extract_video_id t = some t := by
  obtain ⟨hlen, ht⟩ := hv
  have hm : isSubstr markerL t = false := isSubstr_marker_class t ht
  have hsplit := urlsplit_bare t ht
  have hf : fullmatchId t = true := by
    unfold fullmatchId
    rw [Bool.or_eq_true]
    left
    rw [Bool.and_eq_true]
    exact ⟨beq_iff_eq.mpr hlen, List.all_eq_true.mpr ht⟩
  have hse := searchEmbedV_class_none t ht
  have hss := searchShorts_class_none t ht
  unfold extract_video_id
  simp only [hm, Bool.false_eq_true, if_false, hsplit,
    show hasV ([] : List Char) = false from by decide, hse, hss, hf, if_true]

/-! ## Supporting lemmas about the poll loop -/

theorem pollLoop_timeout_from (polls : Nat → PollResp) :
    ∀ k i, maxWait - pollInterval * i = k →
    (∀ j, i ≤ j → pollInterval * j < maxWait → nonTerminalResp (polls j)) →
    pollLoop polls i = (.timeout, 60 - i) := by
  intro k
  induction k using Nat.strong_induction_on with
  | _ k ih =>
    intro i hk hnt
    by_cases hcond : pollInterval * i < maxWait
    · rw [pollLoop, dif_pos hcond]
      have hnti := hnt i le_rfl hcond
      cases hpi : polls i with
      | err => rw [hpi] at hnti; exact hnti.elim
      | ok st d =>
        rw [hpi] at hnti
        obtain ⟨h1, h2, h3, h4⟩ := hnti
        simp only [if_neg h1, if_neg (by tauto : ¬(st = "FAILED" ∨
          st = "ABORTED" ∨ st = "TIMED-OUT"))]
        have hlt : maxWait - pollInterval * (i + 1) < k := by
          simp only [maxWait, pollInterval] at hcond hk ⊢
          omega
        have hrec := ih _ hlt (i + 1) rfl
          (fun j hj hjlt => hnt j (by omega) hjlt)
        have hi60 : i < 60 := by
          simp only [maxWait, pollInterval] at hcond
          omega
        rw [hrec]
        simp only [Prod.mk.injEq, true_and]
        omega
    · rw [pollLoop, dif_neg hcond]
      have h0 : 60 - i = 0 := by
        simp only [maxWait, pollInterval] at hcond
        omega
      rw [h0]

theorem pollLoop_count (polls : Nat → PollResp) :
    ∀ k i, maxWait - pollInterval * i = k →
    (pollLoop polls i).2 ≤ 60 - i := by
  intro k
  induction k using Nat.strong_induction_on with
  | _ k ih =>
    intro i hk
    by_cases hcond : pollInterval * i < maxWait
    · have hi60 : i < 60 := by
        simp only [maxWait, pollInterval] at hcond
        omega
      rw [pollLoop, dif_pos hcond]
      cases polls i with
      | err => simp; omega
      | ok st d =>
        by_cases h1 : st = "SUCCEEDED"
        · simp only [if_pos h1]; simp; omega
        · simp only [if_neg h1]
          by_cases h2 : st = "FAILED" ∨ st = "ABORTED" ∨ st = "TIMED-OUT"
          · simp only [if_pos h2]; simp; omega
          · simp only [if_neg h2]
            have hlt : maxWait - pollInterval * (i + 1) < k := by
              simp only [maxWait, pollInterval] at hcond hk ⊢
              omega
            have hrec := ih _ hlt (i + 1) rfl
            show (pollLoop polls (i + 1)).2 + 1 ≤ 60 - i
            omega
    · rw [pollLoop, dif_neg hcond]
      simp

theorem pollLoop_success_inv (polls : Nat → PollResp) :
    ∀ k i d n, maxWait - pollInterval * i = k →
    pollLoop polls i = (.success d, n) →
    ∃ j, polls j = .ok "SUCCEEDED" d := by
  intro k
  induction k using Nat.strong_induction_on with
  | _ k ih =>
    intro i d n hk h
    by_cases hcond : pollInterval * i < maxWait
    · rw [pollLoop, dif_pos hcond] at h
      cases hpi : polls i with
      | err => rw [hpi] at h; cases h
      | ok st dd =>
        rw [hpi] at h
        by_cases h1 : st = "SUCCEEDED"
        · simp only [if_pos h1] at h
          obtain ⟨he, -⟩ := Prod.mk.injEq _ _ _ _ |>.mp h
          obtain rfl : dd = d := PollExit.success.inj he
          exact ⟨i, h1 ▸ hpi⟩
        · simp only [if_neg h1] at h
          by_cases h2 : st = "FAILED" ∨ st = "ABORTED" ∨ st = "TIMED-OUT"
          · simp only [if_pos h2] at h; cases h
          · simp only [if_neg h2] at h
            obtain ⟨he, -⟩ := Prod.mk.injEq _ _ _ _ |>.mp h
            have hlt : maxWait - pollInterval * (i + 1) < k := by
              simp only [maxWait, pollInterval] at hcond hk ⊢
              omega
            exact ih _ hlt (i + 1) d (pollLoop polls (i + 1)).2 rfl
              (Prod.ext he rfl)
    · rw [pollLoop, dif_neg hcond] at h
      cases h

/-- Submission accepted: the driver's result is determined by the loop and
the fetch. -/
theorem driver_after_success (polls : Nat → PollResp)
    (fetch : String → FetchResp) (rid : String) (d : String) (n : Nat)
    (h : pollLoop polls 0 = (.success (some d), n)) :
    run_apify_actor (.resp 200 (some rid)) polls fetch =
      (fetchStep (fetch d), n) := by
  unfold run_apify_actor
  simp only [if_neg (show ¬(200 = 401) from by decide),
    if_neg (show ¬(200 = 402) from by decide),
    if_neg (show ¬(400 ≤ 200 ∧ 200 < 600) from by decide), h]

/-- The `texts` accumulator of `format_transcript_json` holds precisely the
`text` fields of the retained transcript entries. -/
theorem captionTexts_eq (l : List Caption) :
    l.filterMap captionText =
      (l.filterMap captionEntry).map (fun e => e.text) := by
  induction l with
  | nil => rfl
  | cons c cs ih =>
    rw [List.filterMap_cons, List.filterMap_cons]
    by_cases h : (pyStrip (c.text.getD [])).isEmpty = true
    · simp only [captionText, captionEntry, h, if_true, ih]
    · simp only [captionText, captionEntry, h, Bool.false_eq_true, if_false,
        List.map_cons, ih]

/-! ## Claim theorems -/

/-- Claim C1 (amended): identifiers produced by the embed/legacy path rule,
the shorts path rule, and the bare-token rule always match
`[A-Za-z0-9_-]{11}`, so on inputs free of control characters, `%` and `;`
that carry neither the short-link marker nor a `v` query parameter, every
successful extraction is an 11-character class token.  (The short-link and
watch-page rules, excluded by the two hypotheses, return the text in
identifier position verbatim, without length validation — see the
counterexample.) -/
theorem C1_valid_id_outside_shortlink_and_query (url id : List Char)
    (hplain : ∀ c ∈ url, 32 < c.toNat ∧ c ≠ '%' ∧ c ≠ ';')
    (hm : isSubstr markerL url = false)
    (hv : hasV (urlsplitPQN url).2.2 = false)
    (hx : extract_video_id url = some id) :
    id.length = 11 ∧ id.all classChar = true := by
  unfold extract_video_id at hx
  rw [hm] at hx
  simp only [Bool.false_eq_true, if_false, hv] at hx
  cases he : searchEmbedV (urlsplitPQN url).2.1 with
  | some tok =>
    rw [he] at hx
    obtain rfl : tok = id := Option.some.inj hx
    exact searchEmbedV_valid _ _ he
  | none =>
    rw [he] at hx
    cases hs : searchShorts (urlsplitPQN url).2.1 with
    | some tok =>
      rw [hs] at hx
      have hx2 : some tok = some id := hx
      obtain rfl : tok = id := Option.some.inj hx2
      exact searchShorts_valid _ _ hs
    | none =>
      rw [hs] at hx
      have hx2 : (if fullmatchId url then some url else none) = some id := hx
      split at hx2
      · rename_i hf
        obtain rfl : url = id := Option.some.inj hx2
        rw [fullmatchId, Bool.or_eq_true] at hf
        rcases hf with hf | hf
        · rw [Bool.and_eq_true, beq_iff_eq] at hf
          exact hf
        · rw [Bool.and_eq_true, Bool.and_eq_true] at hf
          have hlast : url.getLast? == some '\n' := hf.2
          have hmem : '\n' ∈ url :=
            List.mem_of_getLast?_eq_some (beq_iff_eq.mp hlast)
          exact absurd (hplain '\n' hmem).1 (by decide)
      · cases hx2

/-- Claim C1 counterexample: a short-link locator whose identifier position
holds 5 characters does not make extraction return nothing — the script
returns the 5-character token itself. -/
theorem C1_counterexample :
    extract_video_id "https://youtu.be/abcde".data = some "abcde".data ∧
      ("abcde".data).length ≠ 11 := by
  constructor
  · decide
  · decide

/-- Claim C1 witness: the amended statement applied at the bare token
`dQw4w9WgXcQ`. -/
theorem C1_witness :
    ("dQw4w9WgXcQ".data).length = 11 ∧
      ("dQw4w9WgXcQ".data).all classChar = true :=
  C1_valid_id_outside_shortlink_and_query "dQw4w9WgXcQ".data
    "dQw4w9WgXcQ".data (by decide) (by decide) (by decide) (by decide)

/-- Claim C2: each of the five recognized locator shapes (short link, watch
page with `v` parameter, `/embed/` or `/v/` path, `/shorts/` path, bare
token) built around one well-formed 11-character token extracts to exactly
that token. -/
theorem C2_five_shapes (t : List Char) (hv : validTok t) :
    extract_video_id (shortLinkUrl t) = some t ∧
      extract_video_id (watchUrl t) = some t ∧
      extract_video_id (embedUrl t) = some t ∧
      extract_video_id (legacyVUrl t) = some t ∧
      extract_video_id (shortsUrl t) = some t ∧
      extract_video_id t = some t :=
  ⟨extract_shortlink t hv, extract_watch t hv, extract_embed t hv,
    extract_legacyV t hv, extract_shorts t hv, extract_bare t hv⟩

/-- Claim C2 witness: the five shapes instantiated at `dQw4w9WgXcQ`. -/
theorem C2_witness :
    extract_video_id (shortLinkUrl "dQw4w9WgXcQ".data) =
        some "dQw4w9WgXcQ".data ∧
      extract_video_id (watchUrl "dQw4w9WgXcQ".data) =
        some "dQw4w9WgXcQ".data ∧
      extract_video_id (embedUrl "dQw4w9WgXcQ".data) =
        some "dQw4w9WgXcQ".data ∧
      extract_video_id (legacyVUrl "dQw4w9WgXcQ".data) =
        some "dQw4w9WgXcQ".data ∧
      extract_video_id (shortsUrl "dQw4w9WgXcQ".data) =
        some "dQw4w9WgXcQ".data ∧
      extract_video_id "dQw4w9WgXcQ".data = some "dQw4w9WgXcQ".data :=
  C2_five_shapes "dQw4w9WgXcQ".data (by decide)

/-- Claim C3 (amended): the short-link rule is applied exactly to those
locators whose full input string contains the marker `youtu.be` anywhere —
not only in the host —, in which case the result is the first path segment
(path with leading slashes stripped, truncated at the first `?`); when the
marker occurs nowhere in the string, the locator falls through to the
later rules in order. -/
theorem C3_shortlink_rule_scope (url : List Char) :
    (isSubstr markerL url = true →
      extract_video_id url = some (takeUntilAny ['?']
        (((urlsplitPQN url).2.1).dropWhile (fun c => c == '/')))) ∧
    (isSubstr markerL url = false →
      extract_video_id url =
        (if hasV (urlsplitPQN url).2.2 then
          some (firstV (urlsplitPQN url).2.2)
        else
          match searchEmbedV (urlsplitPQN url).2.1 with
          | some tok => some tok
          | none =>
            match searchShorts (urlsplitPQN url).2.1 with
            | some tok => some tok
            | none => if fullmatchId url then some url else none)) := by
  constructor
  · intro hm
    unfold extract_video_id
    rw [hm]
    simp
  · intro hm
    unfold extract_video_id
    rw [hm]
    simp

/-- Claim C3 counterexample: a watch-page locator whose host is
`www.youtube.com` (marker-free) but whose query string contains the marker
is handled by the short-link rule, yielding the path segment `watch`
instead of falling through to the `v`-parameter rule. -/
theorem C3_counterexample :
    (urlsplitPQN
        "https://www.youtube.com/watch?v=dQw4w9WgXcQ&u=youtu.be".data).1 =
        "www.youtube.com".data ∧
      isSubstr markerL "www.youtube.com".data = false ∧
      extract_video_id
          "https://www.youtube.com/watch?v=dQw4w9WgXcQ&u=youtu.be".data =
        some "watch".data ∧
      extract_video_id
          "https://www.youtube.com/watch?v=dQw4w9WgXcQ&u=youtu.be".data ≠
        some "dQw4w9WgXcQ".data := by
  refine ⟨by decide, by decide, by decide, by decide⟩

/-- Claim C3 witness: both directions of the amended statement, at a
short link and at a bare token. -/
theorem C3_witness :
    extract_video_id "https://youtu.be/dQw4w9WgXcQ".data =
      some (takeUntilAny ['?']
        (((urlsplitPQN "https://youtu.be/dQw4w9WgXcQ".data).2.1).dropWhile
          (fun c => c == '/'))) ∧
    extract_video_id "dQw4w9WgXcQ".data =
      (if hasV (urlsplitPQN "dQw4w9WgXcQ".data).2.2 then
        some (firstV (urlsplitPQN "dQw4w9WgXcQ".data).2.2)
      else
        match searchEmbedV (urlsplitPQN "dQw4w9WgXcQ".data).2.1 with
        | some tok => some tok
        | none =>
          match searchShorts (urlsplitPQN "dQw4w9WgXcQ".data).2.1 with
          | some tok => some tok
          | none =>
            if fullmatchId "dQw4w9WgXcQ".data then
              some "dQw4w9WgXcQ".data
            else none) :=
  ⟨(C3_shortlink_rule_scope "https://youtu.be/dQw4w9WgXcQ".data).1
      (by decide),
    (C3_shortlink_rule_scope "dQw4w9WgXcQ".data).2 (by decide)⟩

/-- Claim C4: submit error handling — a raised request exception is a
submit-phase TransportError; status 401 is AuthError and 402 is
QuotaError, each with zero poll attempts made; any other HTTP error
status (the `raise_for_status` range [400, 600)) and any body that fails
to parse are submit-phase TransportErrors; all with zero polls, hence no
retry and no poll attempt. -/
theorem C4_submit_errors (polls : Nat → PollResp)
    (fetch : String → FetchResp) (b : Option String) (s : Nat) :
    run_apify_actor .netErr polls fetch =
        (.transportError .submitPhase, 0) ∧
      run_apify_actor (.resp 401 b) polls fetch = (.authError, 0) ∧
      run_apify_actor (.resp 402 b) polls fetch = (.quotaError, 0) ∧
      (400 ≤ s → s < 600 → s ≠ 401 → s ≠ 402 →
        run_apify_actor (.resp s b) polls fetch =
          (.transportError .submitPhase, 0)) ∧
      (¬(400 ≤ s ∧ s < 600) → s ≠ 401 → s ≠ 402 →
        run_apify_actor (.resp s none) polls fetch =
          (.transportError .submitPhase, 0)) := by
  refine ⟨rfl, ?_, ?_, ?_, ?_⟩
  · simp only [run_apify_actor]
    simp
  · simp only [run_apify_actor]
    simp
  · intro h4 h6 hn1 hn2
    simp only [run_apify_actor]
    rw [if_neg hn1, if_neg hn2, if_pos ⟨h4, h6⟩]
  · intro hrs hn1 hn2
    simp only [run_apify_actor]
    rw [if_neg hn1, if_neg hn2, if_neg hrs]

/-- Claim C4 witness: the five submit failure forms at concrete inputs. -/
theorem C4_witness :
    run_apify_actor .netErr (fun _ => .err) (fun _ => .err) =
        (.transportError .submitPhase, 0) ∧
      run_apify_actor (.resp 401 none) (fun _ => .err) (fun _ => .err) =
        (.authError, 0) ∧
      run_apify_actor (.resp 402 none) (fun _ => .err) (fun _ => .err) =
        (.quotaError, 0) ∧
      run_apify_actor (.resp 500 none) (fun _ => .err) (fun _ => .err) =
        (.transportError .submitPhase, 0) ∧
      run_apify_actor (.resp 200 none) (fun _ => .err) (fun _ => .err) =
        (.transportError .submitPhase, 0) := by
  obtain ⟨h1, h2, h3, h4, -⟩ :=
    C4_submit_errors (fun _ => .err) (fun _ => .err) none 500
  obtain ⟨-, -, -, -, h5⟩ :=
    C4_submit_errors (fun _ => .err) (fun _ => .err) none 200
  exact ⟨h1, h2, h3, h4 (by decide) (by decide) (by decide) (by decide),
    h5 (by decide) (by decide) (by decide)⟩

/-- Claim C5: poll terminal-state handling — within the budget, a
`SUCCEEDED` poll exits the loop successfully with that response's dataset
id; a `FAILED`/`ABORTED`/`TIMED-OUT` poll exits with a remote failure
tagged with the reported status string; a raised poll exception exits
immediately with a transport error (one poll, no retry); a successful
driver outcome requires some poll to have returned `SUCCEEDED`; and after
a successful loop exit the driver proceeds to the dataset fetch. -/
theorem C5_poll_terminals (polls : Nat → PollResp) (i : Nat) (st : String)
    (d : Option String) (fetch : String → FetchResp) (rid : String) :
    (pollInterval * i < maxWait → polls i = .ok "SUCCEEDED" d →
      pollLoop polls i = (.success d, 1)) ∧
    (pollInterval * i < maxWait →
      (st = "FAILED" ∨ st = "ABORTED" ∨ st = "TIMED-OUT") →
      polls i = .ok st d → pollLoop polls i = (.remote st, 1)) ∧
    (pollInterval * i < maxWait → polls i = .err →
      pollLoop polls i = (.transport, 1)) ∧
    (∀ r n, run_apify_actor (.resp 200 (some rid)) polls fetch =
      (.success r, n) → ∃ j d2, polls j = .ok "SUCCEEDED" d2) ∧
    (∀ dd n, pollLoop polls 0 = (.success (some dd), n) →
      run_apify_actor (.resp 200 (some rid)) polls fetch =
        (fetchStep (fetch dd), n)) := by
  refine ⟨?_, ?_, ?_, ?_, ?_⟩
  · intro hc hp
    rw [pollLoop, dif_pos hc, hp]
    simp
  · intro hc hterm hp
    have hne : st ≠ "SUCCEEDED" := by
      rcases hterm with rfl | rfl | rfl <;> decide
    rw [pollLoop, dif_pos hc, hp]
    simp only [if_neg hne, if_pos hterm]
  · intro hc hp
    rw [pollLoop, dif_pos hc, hp]
  · intro r n h
    simp only [run_apify_actor] at h
    cases hP : pollLoop polls 0 with
    | mk e cnt =>
      rw [hP] at h
      cases e with
      | transport => simp at h
      | timeout => simp at h
      | remote st2 => simp at h
      | success dsid =>
        cases dsid with
        | none => simp at h
        | some dd =>
          obtain ⟨j, hj⟩ := pollLoop_success_inv polls
            (maxWait - pollInterval * 0) 0 (some dd) cnt rfl hP
          exact ⟨j, some dd, hj⟩
  · intro dd n h
    exact driver_after_success polls fetch rid dd n h

/-- Claim C5 witness: the loop-exit clauses at concrete oracles, and the
driver-level clauses on a first-poll-succeeds run. -/
theorem C5_witness :
    pollLoop pollsSucc 0 = (.success (some "D"), 1) ∧
      pollLoop pollsFail 0 = (.remote "FAILED", 1) ∧
      pollLoop pollsErr 0 = (.transport, 1) ∧
      (∃ j d2, pollsSucc j = .ok "SUCCEEDED" d2) ∧
      run_apify_actor (.resp 200 (some "r")) pollsSucc fetchOne =
        (fetchStep (fetchOne "D"), 1) := by
  have hl : pollLoop pollsSucc 0 = (.success (some "D"), 1) :=
    (C5_poll_terminals pollsSucc 0 "x" (some "D") fetchOne "r").1
      (by decide) rfl
  have hrun := (C5_poll_terminals pollsSucc 0 "x" (some "D") fetchOne
    "r").2.2.2.2 "D" 1 hl
  refine ⟨hl, ?_, ?_, ?_, hrun⟩
  · exact (C5_poll_terminals pollsFail 0 "FAILED" none fetchOne "r").2.1
      (by decide) (Or.inl rfl) rfl
  · exact (C5_poll_terminals pollsErr 0 "x" none fetchOne "r").2.2.1
      (by decide) rfl
  · exact (C5_poll_terminals pollsSucc 0 "x" (some "D") fetchOne
      "r").2.2.2.1 sampleRec 1 (hrun.trans rfl)

/-- Claim C6: the local budget is a hard stop — when every in-budget poll
returns a non-terminal status the loop performs exactly 60 polls (2-unit
interval against the 120-unit budget) and exits with a timeout, which the
driver reports as the local-timeout failure; and on every oracle the loop
performs at most 60 polls, so polling always terminates. -/
theorem C6_local_timeout (polls : Nat → PollResp) (rid : String)
    (fetch : String → FetchResp) :
    ((∀ i, pollInterval * i < maxWait → nonTerminalResp (polls i)) →
      pollLoop polls 0 = (.timeout, 60) ∧
      run_apify_actor (.resp 200 (some rid)) polls fetch =
        (.localTimeout, 60)) ∧
    (pollLoop polls 0).2 ≤ 60 := by
  constructor
  · intro hnt
    have hto : pollLoop polls 0 = (.timeout, 60) :=
      pollLoop_timeout_from polls (maxWait - pollInterval * 0) 0 rfl
        (fun j _ hj => hnt j hj)
    refine ⟨hto, ?_⟩
    simp only [run_apify_actor, hto]
    simp
  · have := pollLoop_count polls (maxWait - pollInterval * 0) 0 rfl
    simpa using this

/-- Claim C6 witness: a constantly `RUNNING` status sequence polls exactly
60 times, then the driver fails with the local timeout. -/
theorem C6_witness :
    pollLoop pollsRun 0 = (.timeout, 60) ∧
      run_apify_actor (.resp 200 (some "r")) pollsRun fetchOne =
        (.localTimeout, 60) ∧
      (pollLoop pollsRun 0).2 ≤ 60 := by
  obtain ⟨h1, h2⟩ := C6_local_timeout pollsRun "r" fetchOne
  obtain ⟨ha, hb⟩ := h1
    (fun i _ => (by decide : nonTerminalResp (PollResp.ok "RUNNING" none)))
  exact ⟨ha, hb, h2⟩

/-- Claim C7: fetch result handling after a successful job — an empty
dataset item collection is the empty-result failure, and a nonempty one
returns its first item; in both cases the polls already made are the only
requests repeated nowhere. -/
theorem C7_fetch_result (polls : Nat → PollResp)
    (fetch : String → FetchResp) (rid d : String) (n : Nat)
    (h : pollLoop polls 0 = (.success (some d), n)) :
    (fetch d = .ok [] → run_apify_actor (.resp 200 (some rid)) polls fetch =
      (.emptyResult, n)) ∧
    (∀ x xs, fetch d = .ok (x :: xs) →
      run_apify_actor (.resp 200 (some rid)) polls fetch =
        (.success x, n)) := by
  constructor
  · intro hf
    rw [driver_after_success polls fetch rid d n h, hf]
    rfl
  · intro x xs hf
    rw [driver_after_success polls fetch rid d n h, hf]
    rfl

/-- Claim C7 witness: the empty and nonempty fetch results after a
first-poll success. -/
theorem C7_witness :
    run_apify_actor (.resp 200 (some "r")) pollsSucc fetchEmpty =
        (.emptyResult, 1) ∧
      run_apify_actor (.resp 200 (some "r")) pollsSucc fetchOne =
        (.success sampleRec, 1) := by
  have hl : pollLoop pollsSucc 0 = (.success (some "D"), 1) := by
    rw [pollLoop, dif_pos (by decide)]
    rfl
  exact ⟨(C7_fetch_result pollsSucc fetchEmpty "r" "D" 1 hl).1 rfl,
    (C7_fetch_result pollsSucc fetchOne "r" "D" 1 hl).2 sampleRec [] rfl⟩

/-- Claim C10: a poll whose status string is outside
{SUCCEEDED, FAILED, ABORTED, TIMED-OUT} never ends the loop at that poll:
the loop result is the result of the next iteration, with one more poll
counted. -/
theorem C10_unknown_status_continues (polls : Nat → PollResp) (i : Nat)
    (st : String) (d : Option String)
    (hc : pollInterval * i < maxWait)
    (h1 : st ≠ "SUCCEEDED") (h2 : st ≠ "FAILED") (h3 : st ≠ "ABORTED")
    (h4 : st ≠ "TIMED-OUT") (hp : polls i = .ok st d) :
    pollLoop polls i =
      ((pollLoop polls (i + 1)).1, (pollLoop polls (i + 1)).2 + 1) := by
  rw [pollLoop, dif_pos hc, hp]
  simp only [if_neg h1,
    if_neg (by tauto : ¬(st = "FAILED" ∨ st = "ABORTED" ∨ st = "TIMED-OUT"))]

/-- Claim C10 witness: a first poll reporting `RUNNING` defers to the
second iteration, which succeeds. -/
theorem C10_witness :
    pollLoop pollsRunOnce 0 =
      ((pollLoop pollsRunOnce 1).1, (pollLoop pollsRunOnce 1).2 + 1) :=
  C10_unknown_status_continues pollsRunOnce 0 "RUNNING" none (by decide)
    (by decide) (by decide) (by decide) (by decide) rfl

/-- Claim C8: text normalization — with a nonempty caption list the output
is the newline-join of the stripped caption texts that remain nonempty, in
order; with no captions the raw `text` field is returned verbatim when
present; otherwise the fixed placeholder. -/
theorem C8_toText (r : TranscriptRecord) :
    (r.captions ≠ [] →
      format_transcript_text r = List.intercalate ['\n']
        ((r.captions.map (fun c => pyStrip (c.text.getD []))).filter
          (fun l => !l.isEmpty))) ∧
    (∀ t, r.captions = [] → r.text = some t →
      format_transcript_text r = t) ∧
    (r.captions = [] → r.text = none →
      format_transcript_text r = noContentMsg) := by
  refine ⟨?_, ?_, ?_⟩
  · intro hne
    unfold format_transcript_text
    rw [if_neg]
    intro hc
    exact hne (List.isEmpty_iff.mp hc)
  · intro t hc htx
    unfold format_transcript_text
    rw [if_pos (List.isEmpty_iff.mpr hc), htx]
  · intro hc htx
    unfold format_transcript_text
    rw [if_pos (List.isEmpty_iff.mpr hc), htx]

/-- Claim C8 witness: the documented round trip
`[{text:"a"},{text:" b "},{text:""}] ↦ "a\nb"`, the verbatim `text`
fallback, and the placeholder fallback. -/
theorem C8_witness :
    format_transcript_text exTextRec = "a\nb".data ∧
      format_transcript_text exRawRec = "raw text".data ∧
      format_transcript_text sampleRec = noContentMsg := by
  refine ⟨?_, ?_, ?_⟩
  · exact ((C8_toText exTextRec).1 (by decide)).trans (by decide)
  · exact (C8_toText exRawRec).2.1 "raw text".data (by decide) (by decide)
  · exact (C8_toText sampleRec).2.2 (by decide) (by decide)

/-- Claim C9: structured normalization always succeeds and returns the
given video id, the title defaulted to `Unknown`, the ordered caption
entries with numeric fields defaulted to 0, texts stripped and
empty-after-strip entries dropped, and a `full_text` that is the
space-join of exactly the retained entry texts; including the documented
example. -/
theorem C9_toStructured (r : TranscriptRecord) (vid : List Char) :
    (format_transcript_json r vid).video_id = vid ∧
      (format_transcript_json r vid).title = r.title.getD "Unknown".data ∧
      (format_transcript_json r vid).transcript =
        r.captions.filterMap captionEntry ∧
      (format_transcript_json r vid).full_text = List.intercalate [' ']
        (((format_transcript_json r vid).transcript).map (fun e => e.text)) ∧
      format_transcript_json exJsonRec "abc12345678".data =
        ⟨"abc12345678".data, "Unknown".data, [⟨1, 2, "hi".data⟩],
          "hi".data⟩ := by
  refine ⟨rfl, rfl, rfl, ?_, by decide⟩
  show List.intercalate [' '] (r.captions.filterMap captionText) =
    List.intercalate [' ']
      ((r.captions.filterMap captionEntry).map (fun e => e.text))
  rw [captionTexts_eq]
